import Mathlib

/-!
Shallow embedding of the `entropyscan` numeric core.

Statistics engine (src/entropy_scan/stats.rs): the Rust code works on
`f64` values but uses only field arithmetic and comparisons, so it is
embedded over `ℚ`, which keeps every definition executable.  Rust
panics (usize subtraction overflow in debug builds, the resulting
out-of-bounds index in release builds, `Option::unwrap` on `None`) are
modelled as `Except.error`; a normal return is `Except.ok`.

Entropy calculator (src/entropy_scan/mod.rs): `f64` entropy values are
embedded as `ℝ` because the computation uses `log2`.  The filesystem
(metadata and content of the scanned path) is passed explicitly as data.
-/

namespace EntropyScan

/-- One scanned file: path plus its entropy (src/entropy_scan/structs.rs,
`FileEntropy`), parametrised by the numeric type of the embedding. -/
structure FileEntropy (α : Type) where
  path : String
  entropy : α
deriving Repr, DecidableEq, Inhabited

/-- Interquartile-range summary (src/entropy_scan/stats.rs, `Iqr`). -/
structure Iqr where
  q1 : ℚ
  q3 : ℚ
  range : ℚ
deriving Repr, DecidableEq, Inhabited

/-- The comparison used by `sort_entropies`: order `FileEntropy` records by
their entropy field (`a.entropy.partial_cmp(&b.entropy)`; total on `ℚ`,
so the `unwrap` there never fires in the model). -/
def entropyLe (a b : FileEntropy ℚ) : Prop := a.entropy ≤ b.entropy

instance : DecidableRel entropyLe := fun a b =>
  inferInstanceAs (Decidable (a.entropy ≤ b.entropy))

/-- `sort_entropies` (stats.rs): stable sort of the records by entropy,
ascending. -/
def sort_entropies (data : List (FileEntropy ℚ)) : List (FileEntropy ℚ) :=
  List.insertionSort entropyLe data

/-- Rust slice indexing `l[i]`: the value at `i`, or a panic (modelled as
`Except.error`) when `i` is out of bounds. -/
def rustIndex (l : List (FileEntropy ℚ)) (i : Nat) : Except String (FileEntropy ℚ) :=
  match l.get? i with
  | some x => Except.ok x
  | none => Except.error "index out of bounds"

/-- Rust `usize` subtraction `a - b` as it behaves in debug builds: a panic
(modelled as `Except.error`) on underflow.  In release builds the
subtraction wraps instead and the wrapped index then triggers the
out-of-bounds panic of `rustIndex`; either way the computation panics,
which is all the model records. -/
def usizeSub (a b : Nat) : Except String Nat :=
  if b ≤ a then Except.ok (a - b) else Except.error "attempt to subtract with overflow"

/-- `interquartile_range` (stats.rs lines 29-59), translated branch by
branch from the source. -/
def interquartile_range (data : List (FileEntropy ℚ)) : Except String (Option Iqr) :=
  if data.isEmpty then Except.ok none
  else if data.length = 1 then do
    let x ← rustIndex data 0
    pure (some { q1 := x.entropy, q3 := x.entropy, range := 0 })
  else
    let sorted_data := sort_entropies data
    let len := sorted_data.length
    let q1_idx := if len % 2 = 0 then len / 4 else (len + 1) / 4
    let q3_idx := 3 * q1_idx
    do
      let i1 ← usizeSub q1_idx 1
      let e1 ← rustIndex sorted_data i1
      let i3 ← usizeSub q3_idx 1
      let e3 ← rustIndex sorted_data i3
      pure (some { q1 := e1.entropy, q3 := e3.entropy, range := e3.entropy - e1.entropy })

/-- `mean` (stats.rs lines 64-75): sum of the entropies divided by the
count; `none` for an empty input.  No panic is reachable in the source,
so the result is a plain `Option`. -/
def mean (data : List (FileEntropy ℚ)) : Option ℚ :=
  if data.isEmpty then none
  else some ((data.map (fun e => e.entropy)).sum / (data.length : ℚ))

/-- `median` (stats.rs lines 80-96), with the two slice indexings going
through `rustIndex`. -/
def median (data : List (FileEntropy ℚ)) : Except String (Option ℚ) :=
  if data.isEmpty then Except.ok none
  else
    let sorted_data := sort_entropies data
    let len := sorted_data.length
    let mid := len / 2
    if len % 2 = 0 then do
      let i ← usizeSub mid 1
      let a ← rustIndex sorted_data i
      let b ← rustIndex sorted_data mid
      pure (some ((a.entropy + b.entropy) / 2))
    else do
      let m ← rustIndex sorted_data mid
      pure (some m.entropy)

/-- `variance` (stats.rs lines 101-114): population variance around
`mean(data).unwrap()`; the unwrap of `None` is a panic, modelled as
`Except.error`. -/
def variance (data : List (FileEntropy ℚ)) : Except String (Option ℚ) :=
  if data.isEmpty then Except.ok none
  else
    match mean data with
    | none => Except.error "called unwrap on a None value"
    | some m =>
        Except.ok (some ((data.map (fun e => (e.entropy - m) ^ 2)).sum / (data.length : ℚ)))

/-- `entropy_outliers` (stats.rs lines 119-136): Tukey fences 1.5 IQR
beyond each quartile, filtering the input in order.  The
`interquartile_range(data).unwrap()` panics when the inner call panics
or returns `None`. -/
def entropy_outliers (data : List (FileEntropy ℚ)) :
    Except String (Option (List (FileEntropy ℚ))) :=
  if data.isEmpty then Except.ok none
  else
    match interquartile_range data with
    | Except.error e => Except.error e
    | Except.ok none => Except.error "called unwrap on a None value"
    | Except.ok (some iqr) =>
        Except.ok (some (data.filter (fun e =>
          decide (e.entropy < iqr.q1 - 1.5 * iqr.range) ||
          decide (e.entropy > iqr.q3 + 1.5 * iqr.range))))

/-! ### Entropy calculator (src/entropy_scan/mod.rs) -/

/-- A byte, as indexed by the 256-entry frequency table of the source. -/
abbrev Byte := Fin 256

/-- `MAX_FILE_SIZE` (mod.rs line 20): 2 GiB. -/
def MAX_FILE_SIZE : Nat := 2147483648

/-- `MAX_ENTROPY_CHUNK` (mod.rs line 25): 2.5 MB. -/
def MAX_ENTROPY_CHUNK : Nat := 2560000

/-- Rust `slice::chunks(n)`: consecutive slices of `n` elements, the last
possibly shorter.  Rust requires `n > 0`; the `max n 1` only guards
termination and equals `n` at every call site. -/
def chunksOf (n : Nat) (l : List Byte) : List (List Byte) :=
  if l.isEmpty then []
  else l.take (max n 1) :: chunksOf n (l.drop (max n 1))
termination_by l.length
decreasing_by
  simp only [List.length_drop]
  have hl : l ≠ [] := by
    intro h
    simp [h] at *
  have : 0 < l.length := List.length_pos.mpr hl
  omega

/-- The per-chunk body of the entropy loop (mod.rs lines 43-58): build the
frequency table over the 256 byte values (`frequency[b] = chunk.count b`,
`total_bytes = chunk.length`), then accumulate `-(p * log2 p)` for every
value with nonzero count, zero-count values skipped. -/
noncomputable def chunkEntropy (chunk : List Byte) : ℝ :=
  ∑ b : Fin 256,
    if chunk.count b = 0 then 0
    else -(((chunk.count b : ℝ) / (chunk.length : ℝ)) *
           Real.logb 2 ((chunk.count b : ℝ) / (chunk.length : ℝ)))

/-- The whole entropy loop of `calculate_entropy` (mod.rs lines 42-59): a
single running total, accumulated chunk by chunk over the chunks of the
byte stream. -/
noncomputable def entropy_total (file_bytes : List Byte) : ℝ :=
  (chunksOf MAX_ENTROPY_CHUNK file_bytes).foldl (fun acc c => acc + chunkEntropy c) 0

/-- What `fs::metadata` reports about the scanned path: its length in
bytes and whether it is a directory. -/
structure FileMeta where
  size : Nat
  isDir : Bool
deriving Repr, DecidableEq

/-- The filesystem as `calculate_entropy` observes it for one path: the
result of `fs::metadata` and the result of `fs::read`, `none` standing
for the failing case of either call. -/
structure FileSystemView where
  metadata : Option FileMeta
  content : Option (List Byte)

/-- `calculate_entropy` (mod.rs lines 30-70): guards in source order —
metadata, size, directory, read — then the entropy loop. -/
noncomputable def calculate_entropy (filename : String) (f : FileSystemView) :
    Except String (FileEntropy ℝ) :=
  match f.metadata with
  | none => Except.error "Couldn't read file metadata!"
  | some metadata =>
    if metadata.size > MAX_FILE_SIZE then Except.error "File too large"
    else if metadata.isDir then Except.error "Is a directory"
    else
      match f.content with
      | none => Except.error "Couldn't read file!"
      | some file_bytes =>
          Except.ok { path := filename, entropy := entropy_total file_bytes }

/-! ### Definitions written from the words of the spec, for the
refinement-style claims. -/

/-- Spec wording for the whole-file entropy: the per-chunk Shannon
entropies of the consecutive fixed-size chunks, summed (not averaged). -/
noncomputable def specChunkSum (file_bytes : List Byte) : ℝ :=
  ((chunksOf MAX_ENTROPY_CHUNK file_bytes).map chunkEntropy).sum

/-- Spec wording for `mean`: the arithmetic mean of the entropies. -/
def specMean (data : List (FileEntropy ℚ)) : ℚ :=
  (data.map (fun e => e.entropy)).sum / (data.length : ℚ)

/-- Spec wording for `median`: the middle entropy of the ascending sort
for an odd count, the average of the two middle entropies for an even
count. -/
def specMedian (data : List (FileEntropy ℚ)) : ℚ :=
  let s := sort_entropies data
  if data.length % 2 = 0 then
    ((s.getD (data.length / 2 - 1) default).entropy +
     (s.getD (data.length / 2) default).entropy) / 2
  else (s.getD (data.length / 2) default).entropy

/-- Spec wording for `variance`: the population variance, the sum of
squared deviations from the mean divided by `n` (not `n - 1`). -/
def specVariance (data : List (FileEntropy ℚ)) : ℚ :=
  (data.map (fun e => (e.entropy - specMean data) ^ 2)).sum / (data.length : ℚ)

/-- A maximum-entropy chunk: every one of the 256 byte values occurs
exactly 10,000 times, for a total of exactly `MAX_ENTROPY_CHUNK` bytes. -/
def maxEntropyChunk : List Byte :=
  (List.finRange 256).flatMap (fun b => List.replicate 10000 b)

/-! ### Helper lemmas on the statistics engine -/

theorem sort_entropies_length (data : List (FileEntropy ℚ)) :
    (sort_entropies data).length = data.length :=
  List.length_insertionSort entropyLe data

theorem rustIndex_ok {l : List (FileEntropy ℚ)} {i : Nat} (h : i < l.length) :
    rustIndex l i = Except.ok (l.getD i default) := by
  rw [rustIndex, List.get?_eq_get h, List.getD_eq_getElem l default h]
  rfl

/-- Reduction of the `Except` monad bind on a success value. -/
theorem except_bind_ok {α β : Type} (a : α) (f : α → Except String β) :
    (Except.ok a >>= f) = f a := rfl

theorem usizeSub_one_ok {a : Nat} (h : 1 ≤ a) : usizeSub a 1 = Except.ok (a - 1) := by
  rw [usizeSub, if_pos h]

theorem isEmpty_false_of_ne_nil {α : Type} {l : List α} (h : l ≠ []) :
    l.isEmpty = false := by
  cases l with
  | nil => exact absurd rfl h
  | cons a t => rfl

/-- The quartile positions of `interquartile_range` for an input of `n ≥ 3`
elements, and their in-bounds property. -/
theorem quartile_indices_bounds {n : Nat} (h : 3 ≤ n) :
    1 ≤ (if n % 2 = 0 then n / 4 else (n + 1) / 4) ∧
    3 * (if n % 2 = 0 then n / 4 else (n + 1) / 4) ≤ n := by
  split <;> omega

/-- Full evaluation of `interquartile_range` on an input of at least three
elements: no panic, and the quartiles come from the stated 1-based
positions of the sorted sequence. -/
theorem interquartile_range_eq_of_three_le (data : List (FileEntropy ℚ))
    (h : 3 ≤ data.length) :
    interquartile_range data =
      let sorted := sort_entropies data
      let q1i := if data.length % 2 = 0 then data.length / 4 else (data.length + 1) / 4
      let q3i := 3 * q1i
      Except.ok (some
        { q1 := (sorted.getD (q1i - 1) default).entropy
          q3 := (sorted.getD (q3i - 1) default).entropy
          range := (sorted.getD (q3i - 1) default).entropy -
                   (sorted.getD (q1i - 1) default).entropy }) := by
  have hne : data.isEmpty = false := isEmpty_false_of_ne_nil (by
    intro e; rw [e] at h; simp at h)
  have h1 : ¬(data.length = 1) := by omega
  obtain ⟨hq1, hq3⟩ := quartile_indices_bounds h
  have hsl : (sort_entropies data).length = data.length := sort_entropies_length data
  rw [interquartile_range, hne]
  simp only [Bool.false_eq_true, if_false, hsl, h1, if_false]
  set q1i := if data.length % 2 = 0 then data.length / 4 else (data.length + 1) / 4 with hq
  have hb1 : q1i - 1 < (sort_entropies data).length := by rw [hsl]; omega
  have hb3 : 3 * q1i - 1 < (sort_entropies data).length := by rw [hsl]; omega
  rw [usizeSub_one_ok hq1, except_bind_ok, rustIndex_ok hb1, except_bind_ok,
    usizeSub_one_ok (by omega : 1 ≤ 3 * q1i), except_bind_ok, rustIndex_ok hb3,
    except_bind_ok]
  rfl

/-- `interquartile_range` on a single element: both quartiles are the
element itself and the range is zero. -/
theorem interquartile_range_single (p : String) (x : ℚ) :
    interquartile_range [⟨p, x⟩] = Except.ok (some ⟨x, x, 0⟩) := by
  rfl

/-- `interquartile_range` panics (usize underflow, then index out of
bounds) on any input of exactly two elements. -/
theorem interquartile_range_two_panics (data : List (FileEntropy ℚ))
    (h : data.length = 2) :
    interquartile_range data = Except.error "attempt to subtract with overflow" := by
  have hne : data.isEmpty = false := isEmpty_false_of_ne_nil (by
    intro e; rw [e] at h; simp at h)
  have h1 : ¬(data.length = 1) := by omega
  have hsl : (sort_entropies data).length = data.length := sort_entropies_length data
  rw [interquartile_range, hne]
  simp only [Bool.false_eq_true, if_false, hsl, h, h1]
  rfl

/-- Once `interquartile_range` has produced a summary, `entropy_outliers`
filters the input with the Tukey fences of that summary. -/
theorem entropy_outliers_eq_filter (data : List (FileEntropy ℚ)) (iqr : Iqr)
    (hne : data.isEmpty = false)
    (hiqr : interquartile_range data = Except.ok (some iqr)) :
    entropy_outliers data = Except.ok (some (data.filter (fun e =>
      decide (e.entropy < iqr.q1 - 1.5 * iqr.range) ||
      decide (e.entropy > iqr.q3 + 1.5 * iqr.range)))) := by
  rw [entropy_outliers, hne, hiqr]
  simp only [Bool.false_eq_true, if_false]

/-- A single element is never beyond its own Tukey fences, so
`entropy_outliers` of a one-element input is the empty collection. -/
theorem entropy_outliers_single (p : String) (x : ℚ) :
    entropy_outliers [⟨p, x⟩] = Except.ok (some []) := by
  rw [entropy_outliers_eq_filter [⟨p, x⟩] ⟨x, x, 0⟩ rfl (interquartile_range_single p x)]
  norm_num [List.filter]

theorem mean_eq_spec (data : List (FileEntropy ℚ)) (hne : data ≠ []) :
    mean data = some (specMean data) := by
  rw [mean, isEmpty_false_of_ne_nil hne]
  simp only [Bool.false_eq_true, if_false]
  rw [specMean]

theorem median_eq_spec (data : List (FileEntropy ℚ)) (hne : data ≠ []) :
    median data = Except.ok (some (specMedian data)) := by
  have hE := isEmpty_false_of_ne_nil hne
  have hsl := sort_entropies_length data
  have hpos : 0 < data.length := List.length_pos.mpr hne
  rw [median, hE]
  simp only [Bool.false_eq_true, if_false, hsl]
  by_cases hpar : data.length % 2 = 0
  · have hmid1 : 1 ≤ data.length / 2 := by omega
    have hb1 : data.length / 2 - 1 < (sort_entropies data).length := by rw [hsl]; omega
    have hb2 : data.length / 2 < (sort_entropies data).length := by rw [hsl]; omega
    rw [if_pos hpar, usizeSub_one_ok hmid1, except_bind_ok, rustIndex_ok hb1,
      except_bind_ok, rustIndex_ok hb2, except_bind_ok, specMedian]
    simp only [hpar, if_pos]
    rfl
  · have hb : data.length / 2 < (sort_entropies data).length := by rw [hsl]; omega
    rw [if_neg hpar, rustIndex_ok hb, except_bind_ok, specMedian]
    simp only [hpar, if_false]
    rfl

theorem variance_eq_spec (data : List (FileEntropy ℚ)) (hne : data ≠ []) :
    variance data = Except.ok (some (specVariance data)) := by
  rw [variance, isEmpty_false_of_ne_nil hne]
  simp only [Bool.false_eq_true, if_false]
  rw [mean_eq_spec data hne, specVariance, specMean]

/-! ### Claim theorems for the statistics engine -/

/-- C1: the claim states that every statistics operation is total on every
well-formed non-empty input, in particular on inputs of length 2.  The
code violates this: on a two-element input, `interquartile_range`
computes `q1_idx = 2 / 4 = 0` and evaluates `sorted_data[q1_idx - 1]`,
a usize subtraction overflow (debug) or wrapped out-of-bounds index
(release) — a panic either way, modelled as `Except.error`; and
`entropy_outliers` inherits the panic through its internal call.  This
theorem evaluates the code at the failing input. -/
theorem stats_totality_fails_at_length_two :
    interquartile_range [⟨"a", 1⟩, ⟨"b", 2⟩] =
      Except.error "attempt to subtract with overflow" ∧
    entropy_outliers [⟨"a", 1⟩, ⟨"b", 2⟩] =
      Except.error "attempt to subtract with overflow" := by
  have h := interquartile_range_two_panics [⟨"a", 1⟩, ⟨"b", 2⟩] rfl
  refine ⟨h, ?_⟩
  rw [entropy_outliers, h]
  rfl

/-- C2: the empty-input parts of the claim hold — all five operations
return "no value" on `[]`, and `entropy_outliers` returns `none`
rather than an empty collection exactly there.  But the clause "for a
non-empty input with no qualifying elements it returns Some of an empty
collection" fails at length 2: the code panics instead.  This theorem
records the empty-input behavior and evaluates the code at the failing
two-element input. -/
theorem empty_input_no_value_but_length_two_panics :
    mean ([] : List (FileEntropy ℚ)) = none ∧
    median ([] : List (FileEntropy ℚ)) = Except.ok none ∧
    variance ([] : List (FileEntropy ℚ)) = Except.ok none ∧
    interquartile_range ([] : List (FileEntropy ℚ)) = Except.ok none ∧
    entropy_outliers ([] : List (FileEntropy ℚ)) = Except.ok none ∧
    entropy_outliers [⟨"a", 1⟩, ⟨"b", 3⟩] =
      Except.error "attempt to subtract with overflow" := by
  refine ⟨rfl, rfl, rfl, rfl, rfl, ?_⟩
  rw [entropy_outliers, interquartile_range_two_panics [⟨"a", 1⟩, ⟨"b", 3⟩] rfl]
  rfl

/-- C5 counterexample: the claim quantifies over every input of `n ≥ 2`
elements, but at `n = 2` the quartile position `q1_index = 2 / 4 = 0`
makes `sorted[q1_index - 1]` panic, so `interquartile_range` returns
nothing at all at this concrete two-element input. -/
theorem iqr_formula_claim_fails_at_length_two :
    (∀ r : Option Iqr, interquartile_range [⟨"x", 0⟩, ⟨"y", 7⟩] ≠ Except.ok r) ∧
    interquartile_range [⟨"x", 0⟩, ⟨"y", 7⟩] =
      Except.error "attempt to subtract with overflow" := by
  have h := interquartile_range_two_panics [⟨"x", 0⟩, ⟨"y", 7⟩] rfl
  exact ⟨fun r hr => by rw [h] at hr; exact Except.noConfusion hr, h⟩

/-- C5 (amended: the index formulas hold for every input of `n ≥ 3`
elements; at `n = 2` the code panics): `interquartile_range` sorts the
entropies ascending and returns `q1 = sorted[q1_index - 1]` and
`q3 = sorted[q3_index - 1]` (1-based positions), where
`q1_index = n / 4` for even `n` and `(n + 1) / 4` for odd `n`,
`q3_index = 3 * q1_index`, and `range = q3 - q1`; both positions are in
bounds. -/
theorem iqr_quartile_position_formula (data : List (FileEntropy ℚ))
    (h : 3 ≤ data.length) :
    1 ≤ (if data.length % 2 = 0 then data.length / 4 else (data.length + 1) / 4) ∧
    3 * (if data.length % 2 = 0 then data.length / 4 else (data.length + 1) / 4) ≤
      data.length ∧
    interquartile_range data =
      (let sorted := sort_entropies data
       let q1i := if data.length % 2 = 0 then data.length / 4 else (data.length + 1) / 4
       let q3i := 3 * q1i
       Except.ok (some
        { q1 := (sorted.getD (q1i - 1) default).entropy
          q3 := (sorted.getD (q3i - 1) default).entropy
          range := (sorted.getD (q3i - 1) default).entropy -
                   (sorted.getD (q1i - 1) default).entropy })) :=
  ⟨(quartile_indices_bounds h).1, (quartile_indices_bounds h).2,
    interquartile_range_eq_of_three_le data h⟩

/-- Witness for C5 at the four-element input with entropies 4, 2, 1, 3:
the sorted sequence is 1, 2, 3, 4, the quartile positions are 1 and 3,
so `q1 = 1`, `q3 = 3`, `range = 2`. -/
theorem iqr_quartile_position_formula_witness :
    3 ≤ ([⟨"a", 4⟩, ⟨"b", 2⟩, ⟨"c", 1⟩, ⟨"d", 3⟩] : List (FileEntropy ℚ)).length ∧
    interquartile_range [⟨"a", 4⟩, ⟨"b", 2⟩, ⟨"c", 1⟩, ⟨"d", 3⟩] =
      Except.ok (some ⟨1, 3, 2⟩) := by
  refine ⟨by decide, ?_⟩
  have h := (iqr_quartile_position_formula
    [⟨"a", 4⟩, ⟨"b", 2⟩, ⟨"c", 1⟩, ⟨"d", 3⟩] (by decide)).2.2
  rw [h]
  norm_num [sort_entropies, List.insertionSort, List.orderedInsert, entropyLe]

/-- C6 counterexample: on the single-element input with entropy 5 the code
returns `q1 = q3 = 5` (the element itself), not `q1 = q3 = 0` as the
claim states. -/
theorem iqr_single_element_claim_false :
    interquartile_range [⟨"a", 5⟩] = Except.ok (some ⟨5, 5, 0⟩) ∧
    ∀ r : Iqr, interquartile_range [⟨"a", 5⟩] = Except.ok (some r) →
      ¬(r.q1 = 0 ∧ r.q3 = 0) := by
  refine ⟨interquartile_range_single "a" 5, fun r hr hc => ?_⟩
  rw [interquartile_range_single "a" 5] at hr
  obtain ⟨rfl⟩ : r = ⟨5, 5, 0⟩ := by
    cases hr
    rfl
  norm_num at hc

/-- C6 (amended: for a single-element input the code returns `q1` and `q3`
equal to the entropy of that element, and `range = 0`). -/
theorem iqr_single_element_returns_element (p : String) (x : ℚ) :
    interquartile_range [⟨p, x⟩] = Except.ok (some ⟨x, x, 0⟩) :=
  interquartile_range_single p x

/-- C7 counterexample: for the entropies 1, 2, 2, 2, 2, 2, 2, 2, 2, 100
the quartiles are `q1 = q3 = 2` with `range = 0`, so the fences are
"strictly below 2" and "strictly above 2" and the code flags **both**
the element with entropy 1 and the element with entropy 100 — not
exactly the element with entropy 100 as the claim states. -/
theorem outliers_example_flags_one_and_hundred :
    entropy_outliers
      [⟨"f1", 1⟩, ⟨"f2", 2⟩, ⟨"f3", 2⟩, ⟨"f4", 2⟩, ⟨"f5", 2⟩,
       ⟨"f6", 2⟩, ⟨"f7", 2⟩, ⟨"f8", 2⟩, ⟨"f9", 2⟩, ⟨"f10", 100⟩] =
      Except.ok (some [⟨"f1", 1⟩, ⟨"f10", 100⟩]) ∧
    (Except.ok (some [(⟨"f1", 1⟩ : FileEntropy ℚ), ⟨"f10", 100⟩]) :
        Except String (Option (List (FileEntropy ℚ)))) ≠
      Except.ok (some [⟨"f10", 100⟩]) := by
  constructor
  · norm_num [entropy_outliers, interquartile_range, sort_entropies, List.insertionSort,
      List.orderedInsert, entropyLe, rustIndex, usizeSub, Bind.bind, Except.bind,
      Pure.pure, Except.pure, List.filter]
  · simp

/-- C7 (amended: the fence rule holds for every non-empty input whose
length is not 2 — at length 2 the code panics — and the concrete
ten-element example returns exactly the elements with entropies 1 and
100, not only the one with entropy 100): `entropy_outliers` returns
exactly the elements strictly below `q1 - 1.5*range` or strictly above
`q3 + 1.5*range` for the summary computed by `interquartile_range` on
the same input, and a single-element input yields an empty
collection. -/
theorem entropy_outliers_fence_rule (data : List (FileEntropy ℚ))
    (hne : data ≠ []) (h2 : data.length ≠ 2) :
    (∃ iqr, interquartile_range data = Except.ok (some iqr) ∧
      entropy_outliers data = Except.ok (some (data.filter (fun e =>
        decide (e.entropy < iqr.q1 - 1.5 * iqr.range) ||
        decide (e.entropy > iqr.q3 + 1.5 * iqr.range))))) ∧
    (data.length = 1 → entropy_outliers data = Except.ok (some [])) ∧
    entropy_outliers
      [⟨"f1", 1⟩, ⟨"f2", 2⟩, ⟨"f3", 2⟩, ⟨"f4", 2⟩, ⟨"f5", 2⟩,
       ⟨"f6", 2⟩, ⟨"f7", 2⟩, ⟨"f8", 2⟩, ⟨"f9", 2⟩, ⟨"f10", 100⟩] =
      Except.ok (some [⟨"f1", 1⟩, ⟨"f10", 100⟩]) := by
  have hE := isEmpty_false_of_ne_nil hne
  have hpos : 0 < data.length := List.length_pos.mpr hne
  refine ⟨?_, ?_, ?_⟩
  · rcases Nat.lt_or_ge data.length 3 with hlt | hge
    · have h1 : data.length = 1 := by omega
      obtain ⟨d, rfl⟩ := List.length_eq_one.mp h1
      obtain ⟨p, x⟩ := d
      exact ⟨⟨x, x, 0⟩, interquartile_range_single p x,
        entropy_outliers_eq_filter _ _ rfl (interquartile_range_single p x)⟩
    · have h := interquartile_range_eq_of_three_le data hge
      exact ⟨_, h, entropy_outliers_eq_filter _ _ hE h⟩
  · intro h1
    obtain ⟨d, rfl⟩ := List.length_eq_one.mp h1
    obtain ⟨p, x⟩ := d
    exact entropy_outliers_single p x
  · norm_num [entropy_outliers, interquartile_range, sort_entropies, List.insertionSort,
      List.orderedInsert, entropyLe, rustIndex, usizeSub, Bind.bind, Except.bind,
      Pure.pure, Except.pure, List.filter]

/-- Witness for C7 at the three-element input with entropies 1, 2, 3:
`q1 = 1`, `q3 = 3`, `range = 2`, the fences are `-2` and `6`, and no
element qualifies. -/
theorem entropy_outliers_fence_rule_witness :
    ([⟨"a", 1⟩, ⟨"b", 2⟩, ⟨"c", 3⟩] : List (FileEntropy ℚ)) ≠ [] ∧
    ([⟨"a", 1⟩, ⟨"b", 2⟩, ⟨"c", 3⟩] : List (FileEntropy ℚ)).length ≠ 2 ∧
    entropy_outliers [⟨"a", 1⟩, ⟨"b", 2⟩, ⟨"c", 3⟩] = Except.ok (some []) := by
  refine ⟨by decide, by decide, ?_⟩
  obtain ⟨⟨iqr, hiqr, hout⟩, -, -⟩ :=
    entropy_outliers_fence_rule [⟨"a", 1⟩, ⟨"b", 2⟩, ⟨"c", 3⟩] (by decide) (by decide)
  rw [hout]
  have : iqr = ⟨1, 3, 2⟩ := by
    rw [interquartile_range_eq_of_three_le _ (by decide)] at hiqr
    norm_num [sort_entropies, List.insertionSort, List.orderedInsert, entropyLe] at hiqr
    cases hiqr
    rfl
  subst this
  norm_num [List.filter]

/-- C8: `mean` is the arithmetic mean, `median` the middle of the
ascending sort (average of the two middle entropies for an even count),
`variance` the population variance (divisor `n`, not `n - 1`); on the
entropies 1, 2, 3, 4 they evaluate to 2.5, 2.5 and 1.25. -/
theorem stats_mean_median_variance_formulas :
    (∀ data : List (FileEntropy ℚ), data ≠ [] →
      mean data = some (specMean data) ∧
      median data = Except.ok (some (specMedian data)) ∧
      variance data = Except.ok (some (specVariance data))) ∧
    mean [⟨"a", 1⟩, ⟨"b", 2⟩, ⟨"c", 3⟩, ⟨"d", 4⟩] = some 2.5 ∧
    median [⟨"a", 1⟩, ⟨"b", 2⟩, ⟨"c", 3⟩, ⟨"d", 4⟩] = Except.ok (some 2.5) ∧
    variance [⟨"a", 1⟩, ⟨"b", 2⟩, ⟨"c", 3⟩, ⟨"d", 4⟩] = Except.ok (some 1.25) := by
  refine ⟨fun data hne =>
    ⟨mean_eq_spec data hne, median_eq_spec data hne, variance_eq_spec data hne⟩, ?_, ?_, ?_⟩
  · norm_num [mean]
  · norm_num [median, sort_entropies, List.insertionSort, List.orderedInsert, entropyLe,
      rustIndex, usizeSub, Bind.bind, Except.bind, Pure.pure, Except.pure]
  · norm_num [variance, mean]

/-- Witness for C8 at the one-element input with entropy 2. -/
theorem stats_mean_median_variance_formulas_witness :
    ([⟨"a", 2⟩] : List (FileEntropy ℚ)) ≠ [] ∧
    (mean [⟨"a", 2⟩] = some (specMean [⟨"a", 2⟩]) ∧
     median [⟨"a", 2⟩] = Except.ok (some (specMedian [⟨"a", 2⟩])) ∧
     variance [⟨"a", 2⟩] = Except.ok (some (specVariance [⟨"a", 2⟩]))) :=
  ⟨by decide, stats_mean_median_variance_formulas.1 [⟨"a", 2⟩] (by decide)⟩

/-- C9: the guards of `calculate_entropy` fire in source order —
metadata, size, directory, read — a file of exactly 2,147,483,648 bytes
passes the size guard (all later guards permitting, its entropy is
computed), and a file of 2,147,483,649 bytes fails with the
file-too-large error before anything is read, whatever the rest of the
filesystem looks like. -/
theorem calculate_entropy_guard_order :
    (∀ p c, calculate_entropy p ⟨none, c⟩ =
      Except.error "Couldn't read file metadata!") ∧
    (∀ p d c, calculate_entropy p ⟨some ⟨2147483649, d⟩, c⟩ =
      Except.error "File too large") ∧
    (∀ p c, calculate_entropy p ⟨some ⟨2147483648, true⟩, c⟩ =
      Except.error "Is a directory") ∧
    (∀ p, calculate_entropy p ⟨some ⟨2147483648, false⟩, none⟩ =
      Except.error "Couldn't read file!") ∧
    (∀ p file_bytes, calculate_entropy p ⟨some ⟨2147483648, false⟩, some file_bytes⟩ =
      Except.ok { path := p, entropy := entropy_total file_bytes }) := by
  refine ⟨fun p c => rfl, fun p d c => ?_, fun p c => ?_, fun p => ?_, fun p file_bytes => ?_⟩
  · rw [calculate_entropy]
    norm_num [MAX_FILE_SIZE]
  · rw [calculate_entropy]
    norm_num [MAX_FILE_SIZE]
  · rw [calculate_entropy]
    norm_num [MAX_FILE_SIZE]
  · rw [calculate_entropy]
    norm_num [MAX_FILE_SIZE]

/-! ### Helper lemmas on the entropy calculator -/

theorem chunksOf_nil (n : Nat) : chunksOf n [] = [] := by
  rw [chunksOf]
  rfl

theorem chunksOf_cons (n : Nat) (l : List Byte) (h : l ≠ []) :
    chunksOf n l = l.take (max n 1) :: chunksOf n (l.drop (max n 1)) := by
  rw [chunksOf, if_neg]
  simp [isEmpty_false_of_ne_nil h]

/-- A byte stream of at most one chunk length is split into a single
chunk (or none at all when it is empty). -/
theorem chunksOf_of_length_le (l : List Byte) (hn : 1 ≤ MAX_ENTROPY_CHUNK)
    (h : l.length ≤ MAX_ENTROPY_CHUNK) :
    chunksOf MAX_ENTROPY_CHUNK l = if l = [] then [] else [l] := by
  by_cases hl : l = []
  · rw [hl, chunksOf_nil, if_pos rfl]
  · rw [chunksOf_cons _ _ hl, if_neg hl]
    have hmax : max MAX_ENTROPY_CHUNK 1 = MAX_ENTROPY_CHUNK := Nat.max_eq_left hn
    rw [hmax, List.take_of_length_le h, List.drop_eq_nil_of_le h, chunksOf_nil]

theorem foldl_add_chunkEntropy (cs : List (List Byte)) (a : ℝ) :
    cs.foldl (fun acc c => acc + chunkEntropy c) a = a + (cs.map chunkEntropy).sum := by
  induction cs generalizing a with
  | nil => simp
  | cons c t ih => simp [ih, add_assoc]

/-- The running accumulation of `calculate_entropy` equals the sum of the
per-chunk entropies. -/
theorem entropy_total_eq_specChunkSum (file_bytes : List Byte) :
    entropy_total file_bytes = specChunkSum file_bytes := by
  rw [entropy_total, specChunkSum, foldl_add_chunkEntropy, zero_add]

theorem count_flatMap {α β : Type} [BEq α] (a : α) (l : List β) (f : β → List α) :
    (l.flatMap f).count a = (l.map fun b => (f b).count a).sum := by
  induction l with
  | nil => rfl
  | cons b t ih => simp [List.flatMap_cons, List.count_append, ih]

theorem length_flatMap {α β : Type} (l : List β) (f : β → List α) :
    (l.flatMap f).length = (l.map fun b => (f b).length).sum := by
  induction l with
  | nil => rfl
  | cons b t ih => simp [List.flatMap_cons, ih]

theorem maxEntropyChunk_count (b : Byte) : maxEntropyChunk.count b = 10000 := by
  rw [maxEntropyChunk, count_flatMap]
  have : ∀ x : Byte, (List.replicate 10000 x).count b = if x = b then 10000 else 0 := by
    intro x
    rw [List.count_replicate]
    simp
  simp only [this]
  rw [← Fin.sum_univ_def (fun x : Byte => if x = b then 10000 else 0),
    Finset.sum_ite_eq' Finset.univ b (fun _ => 10000), if_pos (Finset.mem_univ b)]

theorem maxEntropyChunk_length : maxEntropyChunk.length = MAX_ENTROPY_CHUNK := by
  rw [maxEntropyChunk, length_flatMap]
  simp only [List.length_replicate]
  rw [← Fin.sum_univ_def (fun _ : Byte => 10000), Finset.sum_const, Finset.card_univ,
    Fintype.card_fin, smul_eq_mul]
  norm_num [MAX_ENTROPY_CHUNK]

theorem logb_two_inv_256 : Real.logb 2 (1 / 256) = -8 := by
  have h1 : (1 / 256 : ℝ) = ((256 : ℝ))⁻¹ := by norm_num
  have h2 : (256 : ℝ) = 2 ^ (8 : ℕ) := by norm_num
  rw [h1, Real.logb_inv, h2, Real.logb_pow, Real.logb_self_eq_one] <;> norm_num

/-- A chunk in which all 256 byte values are equally frequent has entropy
exactly 8. -/
theorem chunkEntropy_maxEntropyChunk : chunkEntropy maxEntropyChunk = 8 := by
  rw [chunkEntropy]
  have hterm : ∀ b : Byte,
      (if maxEntropyChunk.count b = 0 then (0:ℝ)
       else -(((maxEntropyChunk.count b : ℝ) / (maxEntropyChunk.length : ℝ)) *
              Real.logb 2 ((maxEntropyChunk.count b : ℝ) / (maxEntropyChunk.length : ℝ)))) =
      1 / 32 := by
    intro b
    rw [maxEntropyChunk_count, maxEntropyChunk_length, if_neg (by norm_num)]
    have hp : ((10000 : ℕ) : ℝ) / ((MAX_ENTROPY_CHUNK : ℕ) : ℝ) = 1 / 256 := by
      norm_num [MAX_ENTROPY_CHUNK]
    rw [hp, logb_two_inv_256]
    norm_num
  rw [Finset.sum_congr rfl (fun b _ => hterm b), Finset.sum_const, Finset.card_univ,
    Fintype.card_fin, nsmul_eq_mul]
  norm_num

theorem maxEntropyChunk_ne_nil : maxEntropyChunk ≠ [] := by
  intro h
  have hlen := congrArg List.length h
  rw [maxEntropyChunk_length] at hlen
  norm_num [MAX_ENTROPY_CHUNK] at hlen

theorem max_chunk_one : max MAX_ENTROPY_CHUNK 1 = MAX_ENTROPY_CHUNK :=
  Nat.max_eq_left (by norm_num [MAX_ENTROPY_CHUNK])

/-- A file of exactly two maximum-entropy chunks is chunked into those two
chunks. -/
theorem chunksOf_two_max_chunks :
    chunksOf MAX_ENTROPY_CHUNK (maxEntropyChunk ++ maxEntropyChunk) =
      [maxEntropyChunk, maxEntropyChunk] := by
  have happ : maxEntropyChunk ++ maxEntropyChunk ≠ [] := by
    simp [maxEntropyChunk_ne_nil]
  rw [chunksOf_cons _ _ happ, max_chunk_one, ← maxEntropyChunk_length,
    List.take_left, List.drop_left, maxEntropyChunk_length,
    chunksOf_of_length_le maxEntropyChunk (by norm_num [MAX_ENTROPY_CHUNK])
      (le_of_eq maxEntropyChunk_length), if_neg maxEntropyChunk_ne_nil]

/-- C3: the reported entropy is the **sum** (not the average) of the
per-chunk Shannon entropies over consecutive chunks of
`MAX_ENTROPY_CHUNK = 2,560,000` bytes, each chunk entropy being the sum
over byte values with nonzero count of `-p * log2 p` with
`p = count / chunk_length` (which is what `chunkEntropy` states); in
particular a file of exactly two full chunks, each at maximum entropy,
reports 16, not 8. -/
theorem entropy_is_sum_of_chunk_entropies :
    (∀ file_bytes : List Byte, entropy_total file_bytes = specChunkSum file_bytes) ∧
    (maxEntropyChunk ++ maxEntropyChunk).length = 2 * MAX_ENTROPY_CHUNK ∧
    chunkEntropy maxEntropyChunk = 8 ∧
    entropy_total (maxEntropyChunk ++ maxEntropyChunk) = 16 := by
  refine ⟨entropy_total_eq_specChunkSum, ?_, chunkEntropy_maxEntropyChunk, ?_⟩
  · rw [List.length_append, maxEntropyChunk_length]
    omega
  · rw [entropy_total_eq_specChunkSum, specChunkSum, chunksOf_two_max_chunks]
    simp [chunkEntropy_maxEntropyChunk]
    norm_num

/-- The per-chunk entropy depends only on the frequency table: it is
invariant under permutation of the chunk. -/
theorem chunkEntropy_perm {c d : List Byte} (h : c.Perm d) :
    chunkEntropy c = chunkEntropy d := by
  rw [chunkEntropy, chunkEntropy]
  refine Finset.sum_congr rfl fun b _ => ?_
  rw [h.count_eq b, h.length_eq]

/-- C4: for byte streams of at most one chunk (length ≤ 2,560,000), the
accumulated entropy of any permutation equals that of the original
stream. -/
theorem entropy_single_chunk_perm_invariant (bs bs2 : List Byte)
    (hp : bs.Perm bs2) (hlen : bs.length ≤ MAX_ENTROPY_CHUNK) :
    entropy_total bs = entropy_total bs2 := by
  have hlen2 : bs2.length ≤ MAX_ENTROPY_CHUNK := hp.length_eq ▸ hlen
  rw [entropy_total_eq_specChunkSum, entropy_total_eq_specChunkSum, specChunkSum,
    specChunkSum, chunksOf_of_length_le bs (by norm_num [MAX_ENTROPY_CHUNK]) hlen,
    chunksOf_of_length_le bs2 (by norm_num [MAX_ENTROPY_CHUNK]) hlen2]
  by_cases hbs : bs = []
  · have hbs2 : bs2 = [] := by
      subst hbs
      exact hp.symm.eq_nil
    rw [if_pos hbs, if_pos hbs2]
  · have hbs2 : bs2 ≠ [] := by
      intro h2
      exact hbs (by rw [h2] at hp; exact hp.eq_nil)
    rw [if_neg hbs, if_neg hbs2]
    simp [chunkEntropy_perm hp]

/-- Witness for C4 at the two-byte stream `[0, 1]` and its reversal. -/
theorem entropy_single_chunk_perm_invariant_witness :
    ([0, 1] : List Byte).Perm [1, 0] ∧ ([0, 1] : List Byte).length ≤ MAX_ENTROPY_CHUNK ∧
    entropy_total [0, 1] = entropy_total [1, 0] :=
  ⟨by decide, by decide,
    entropy_single_chunk_perm_invariant [0, 1] [1, 0] (by decide) (by decide)⟩

theorem chunkEntropy_nonneg (c : List Byte) : 0 ≤ chunkEntropy c := by
  rw [chunkEntropy]
  refine Finset.sum_nonneg fun b _ => ?_
  by_cases h : c.count b = 0
  · rw [if_pos h]
  · rw [if_neg h]
    have hc1 : 1 ≤ c.count b := Nat.one_le_iff_ne_zero.mpr h
    have hcl : c.count b ≤ c.length := List.count_le_length b c
    have hlpos : (0 : ℝ) < (c.length : ℝ) := by
      have : 1 ≤ c.length := le_trans hc1 hcl
      exact_mod_cast Nat.lt_of_lt_of_le Nat.zero_lt_one this
    have hp0 : (0 : ℝ) < (c.count b : ℝ) / (c.length : ℝ) := by
      apply div_pos _ hlpos
      exact_mod_cast hc1
    have hp1 : (c.count b : ℝ) / (c.length : ℝ) ≤ 1 := by
      rw [div_le_one hlpos]
      exact_mod_cast hcl
    have hlog : Real.logb 2 ((c.count b : ℝ) / (c.length : ℝ)) ≤ 0 :=
      Real.logb_nonpos (by norm_num) hp0.le hp1
    have := mul_nonpos_of_nonneg_of_nonpos hp0.le hlog
    linarith

theorem sum_count_eq_length (c : List Byte) : ∑ b : Byte, c.count b = c.length := by
  induction c with
  | nil => simp
  | cons x t ih =>
    have hcc : ∀ b : Byte, (x :: t).count b = t.count b + if x = b then 1 else 0 := by
      intro b
      by_cases h : x = b
      · subst h
        rw [List.count_cons_self, if_pos rfl]
      · rw [List.count_cons_of_ne (fun e => h e.symm), if_neg h]
        rfl
    simp only [hcc]
    rw [Finset.sum_add_distrib, ih,
      Finset.sum_ite_eq Finset.univ x (fun _ => 1), if_pos (Finset.mem_univ x)]
    simp

theorem logb_two_256 : Real.logb 2 256 = 8 := by
  have h : (256 : ℝ) = 2 ^ (8 : ℕ) := by norm_num
  rw [h, Real.logb_pow, Real.logb_self_eq_one] <;> norm_num

/-- Gibbs-style bound: a chunk entropy over a 256-symbol alphabet is at
most `log2 256 = 8`, by Jensen applied to the concavity of
`x * log (1 / x)`. -/
theorem chunkEntropy_le_eight (c : List Byte) : chunkEntropy c ≤ 8 := by
  by_cases hc : c = []
  · subst hc
    rw [chunkEntropy]
    simp [List.count_nil]
  · have hL1 : 1 ≤ c.length := List.length_pos.mpr hc
    have hL : (0 : ℝ) < (c.length : ℝ) := by exact_mod_cast hL1
    set S : Finset Byte := Finset.univ.filter (fun b => c.count b ≠ 0) with hS
    set p : Byte → ℝ := fun b => (c.count b : ℝ) / (c.length : ℝ) with hpdef
    -- rewrite the entropy as a sum over the support only
    have hsum_eq : chunkEntropy c =
        ∑ b ∈ S, -(p b * Real.logb 2 (p b)) := by
      rw [chunkEntropy, hS, Finset.sum_filter]
      refine Finset.sum_congr rfl fun b _ => ?_
      by_cases h : c.count b = 0
      · rw [if_pos h, if_neg (by simp [h])]
      · rw [if_neg h, if_pos h]
    -- the probabilities on the support sum to one
    have hcount : ∑ b ∈ S, (c.count b : ℝ) = (c.length : ℝ) := by
      have hn : ∑ b ∈ S, c.count b = c.length := by
        rw [hS, Finset.sum_filter_ne_zero, sum_count_eq_length]
      exact_mod_cast hn
    have hp_sum : ∑ b ∈ S, p b = 1 := by
      rw [hpdef]
      rw [← Finset.sum_div, hcount, div_self (ne_of_gt hL)]
    -- the support is non-empty and has at most 256 elements
    have hS_nonempty : S.Nonempty := by
      obtain ⟨b₀, hb₀⟩ := List.exists_mem_of_ne_nil c hc
      refine ⟨b₀, ?_⟩
      rw [hS, Finset.mem_filter]
      exact ⟨Finset.mem_univ b₀, Nat.pos_iff_ne_zero.mp (List.count_pos_iff.mpr hb₀)⟩
    have hcard_pos : 0 < S.card := Finset.card_pos.mpr hS_nonempty
    have hcardR : (0 : ℝ) < (S.card : ℝ) := by exact_mod_cast hcard_pos
    have hcard_le : S.card ≤ 256 := by
      calc S.card ≤ (Finset.univ : Finset Byte).card :=
            Finset.card_filter_le (Finset.univ : Finset Byte) (fun b => c.count b ≠ 0)
        _ = 256 := by rw [Finset.card_univ, Fintype.card_fin]
    -- Jensen for the concave function x ↦ -x * log x with equal weights
    have hw0 : ∀ i ∈ S, (0 : ℝ) ≤ 1 / (S.card : ℝ) := fun i _ => by positivity
    have hw1 : ∑ _i ∈ S, 1 / (S.card : ℝ) = 1 := by
      rw [Finset.sum_const, nsmul_eq_mul, mul_one_div, div_self (ne_of_gt hcardR)]
    have hmem : ∀ i ∈ S, p i ∈ Set.Ici (0 : ℝ) := fun i _ => by
      rw [Set.mem_Ici, hpdef]
      exact div_nonneg (Nat.cast_nonneg _) (Nat.cast_nonneg _)
    have hjensen := Real.concaveOn_negMulLog.le_map_sum hw0 hw1 hmem
    have hrhs : ∑ i ∈ S, (1 / (S.card : ℝ)) • p i = 1 / (S.card : ℝ) := by
      simp only [smul_eq_mul]
      rw [← Finset.mul_sum, hp_sum, mul_one]
    have hlhs : ∑ i ∈ S, (1 / (S.card : ℝ)) • Real.negMulLog (p i) =
        (1 / (S.card : ℝ)) * ∑ i ∈ S, Real.negMulLog (p i) := by
      simp only [smul_eq_mul]
      rw [Finset.mul_sum]
    rw [hrhs, hlhs] at hjensen
    have hnm : Real.negMulLog (1 / (S.card : ℝ)) =
        (1 / (S.card : ℝ)) * Real.log (S.card : ℝ) := by
      rw [Real.negMulLog, one_div, Real.log_inv]
      ring
    rw [hnm] at hjensen
    have hmain : ∑ i ∈ S, Real.negMulLog (p i) ≤ Real.log (S.card : ℝ) :=
      le_of_mul_le_mul_left hjensen (by positivity)
    have hterm : ∀ b : Byte, -(p b * Real.logb 2 (p b)) = Real.negMulLog (p b) / Real.log 2 := by
      intro b
      rw [Real.negMulLog, Real.logb]
      ring
    have hlog2 : (0 : ℝ) < Real.log 2 := Real.log_pos (by norm_num)
    calc chunkEntropy c
        = (∑ b ∈ S, Real.negMulLog (p b)) / Real.log 2 := by
          rw [hsum_eq, Finset.sum_congr rfl fun b _ => hterm b, Finset.sum_div]
      _ ≤ Real.log (S.card : ℝ) / Real.log 2 := by
          apply div_le_div_of_nonneg_right hmain hlog2.le
      _ = Real.logb 2 (S.card : ℝ) := by
          rw [Real.logb]
      _ ≤ Real.logb 2 256 :=
          Real.logb_le_logb_of_le (by norm_num) hcardR (by exact_mod_cast hcard_le)
      _ = 8 := logb_two_256

/-- The number of chunks is the ceiling of `length / MAX_ENTROPY_CHUNK`,
expressed as `(length + MAX_ENTROPY_CHUNK - 1) / MAX_ENTROPY_CHUNK` in
natural-number division. -/
theorem chunksOf_length_eq (l : List Byte) :
    (chunksOf MAX_ENTROPY_CHUNK l).length =
      (l.length + MAX_ENTROPY_CHUNK - 1) / MAX_ENTROPY_CHUNK := by
  suffices h : ∀ (fuel : Nat) (m : List Byte), m.length ≤ fuel →
      (chunksOf MAX_ENTROPY_CHUNK m).length =
        (m.length + MAX_ENTROPY_CHUNK - 1) / MAX_ENTROPY_CHUNK from
    h l.length l le_rfl
  intro fuel
  induction fuel with
  | zero =>
    intro m hm
    have : m = [] := List.eq_nil_of_length_eq_zero (Nat.le_zero.mp hm)
    subst this
    rw [chunksOf_nil]
    simp only [List.length_nil, MAX_ENTROPY_CHUNK]
  | succ fuel ih =>
    intro m hm
    by_cases hnil : m = []
    · subst hnil
      rw [chunksOf_nil]
      simp only [List.length_nil, MAX_ENTROPY_CHUNK]
    · have hpos : 0 < m.length := List.length_pos.mpr hnil
      rw [chunksOf_cons _ _ hnil, max_chunk_one]
      have hdrop : (m.drop MAX_ENTROPY_CHUNK).length = m.length - MAX_ENTROPY_CHUNK :=
        List.length_drop MAX_ENTROPY_CHUNK m
      have hfuel : (m.drop MAX_ENTROPY_CHUNK).length ≤ fuel := by
        rw [hdrop]
        have : 1 ≤ MAX_ENTROPY_CHUNK := by norm_num [MAX_ENTROPY_CHUNK]
        omega
      rw [List.length_cons, ih _ hfuel, hdrop]
      simp only [MAX_ENTROPY_CHUNK] at *
      omega

/-- C10: the accumulated entropy is non-negative and at most 8 per chunk,
hence at most `8 * ceil(length / 2,560,000)`; the number of chunks is
exactly that ceiling. -/
theorem entropy_total_bounds (file_bytes : List Byte) :
    0 ≤ entropy_total file_bytes ∧
    entropy_total file_bytes ≤
      8 * ((chunksOf MAX_ENTROPY_CHUNK file_bytes).length : ℝ) ∧
    (chunksOf MAX_ENTROPY_CHUNK file_bytes).length =
      (file_bytes.length + MAX_ENTROPY_CHUNK - 1) / MAX_ENTROPY_CHUNK := by
  refine ⟨?_, ?_, chunksOf_length_eq file_bytes⟩
  · rw [entropy_total_eq_specChunkSum, specChunkSum]
    refine List.sum_nonneg fun x hx => ?_
    obtain ⟨c, -, rfl⟩ := List.mem_map.mp hx
    exact chunkEntropy_nonneg c
  · rw [entropy_total_eq_specChunkSum, specChunkSum]
    have h := List.sum_le_card_nsmul ((chunksOf MAX_ENTROPY_CHUNK file_bytes).map chunkEntropy)
      8 (fun x hx => by
        obtain ⟨c, -, rfl⟩ := List.mem_map.mp hx
        exact chunkEntropy_le_eight c)
    rw [List.length_map, nsmul_eq_mul] at h
    linarith

end EntropyScan
